import Mathlib

/-!
Verification of the GraphQL profile dashboard.

This file shallowly embeds the data-shaping and chart-geometry code of the
dashboard (GraphQLService.js, User.js, ProfileView.js, SVGUtils.js) and proves
or refutes the frozen specification claims about it.

Modelling conventions:
- JavaScript numbers holding integer data (transaction amounts, timestamps)
  are modelled as integers; numbers flowing through chart arithmetic are
  modelled as rationals.
- Division in chart code can produce NaN or an infinity (JavaScript never
  throws on division).  Chart arithmetic is therefore carried out in the type
  JSNum, whose constructor undef stands for every non-finite value (NaN, plus
  or minus infinity) and whose constructor fin carries a finite rational.
  Every arithmetic operation of JavaScript maps non-finite operands to
  non-finite results except division by a non-finite value; in the embedded
  code every divisor is a directly computed finite number, so division is
  modelled with a rational divisor.
- JavaScript objects used as string-keyed dictionaries are modelled as
  insertion-ordered association lists with first-occurrence lookup.
- Falsy defaulting (expr || 0, expr || []) is modelled by explicit case
  analysis on the zero / missing value.
-/

namespace GraphQLProfile

/-- A row of the transactions table, as selected by the profile query:
type, amount, createdAt, path, originEventId. -/
structure Transaction where
  type : String
  amount : ℤ
  createdAt : ℤ
  path : String
  originEventId : ℤ
deriving DecidableEq, Repr

/-- A row of the xps collection: amount, path, originEventId. -/
structure XPEntry where
  amount : ℤ
  path : String
  originEventId : ℤ
deriving DecidableEq, Repr

/-- A row of the audits collection: grade (nullable), auditedAt (nullable). -/
structure AuditEntry where
  grade : Option ℚ
  auditedAt : Option ℤ
deriving DecidableEq, Repr

/-- A row of progressesByPath: succeeded, count, path. -/
structure ProgressEntry where
  succeeded : Bool
  count : ℤ
  path : String
deriving DecidableEq, Repr

/-- JavaScript Math.round: round half toward positive infinity. -/
def jsRound (x : ℚ) : ℤ := ⌊x + 1/2⌋

/-- GraphQLService.calculateTotalXP: filter type equal xp, reduce summing
amount from 0. -/
def calculateTotalXP (transactions : List Transaction) : ℤ :=
  (transactions.filter fun t => t.type == "xp").foldl (fun sum t => sum + t.amount) 0

/-- GraphQLService.createTimeline: filter type equal xp, map each transaction
to (date, amount, originEventId); new Date(createdAt) is kept as the raw
timestamp. -/
def createTimeline (transactions : List Transaction) : List (ℤ × ℤ × ℤ) :=
  (transactions.filter fun t => t.type == "xp").map fun xp =>
    (xp.createdAt, xp.amount, xp.originEventId)

/-- Lookup of a string key in a JavaScript object modelled as an association
list: first matching key wins. -/
def objGet (obj : List (String × ℤ)) (key : String) : Option ℤ :=
  match obj with
  | [] => none
  | (k, v) :: rest => if k = key then some v else objGet rest key

/-- Assignment to a string key in a JavaScript object: overwrite the first
matching entry, or append a fresh entry at the end (insertion order). -/
def objSet (obj : List (String × ℤ)) (key : String) (value : ℤ) : List (String × ℤ) :=
  match obj with
  | [] => [(key, value)]
  | (k, v) :: rest => if k = key then (k, value) :: rest else (k, v) :: objSet rest key value

/-- Sum of the values of a JavaScript object (Object.values followed by a
sum). -/
def objValuesSum (obj : List (String × ℤ)) : ℤ := (obj.map Prod.snd).sum

/-- GraphQLService.groupXPByPath: filter type equal xp, then reduce into an
object, keyed by path with default key Unknown for an absent or empty path,
adding amount into the existing entry (acc[path] = (acc[path] || 0) +
t.amount). -/
def groupXPByPath (transactions : List Transaction) : List (String × ℤ) :=
  (transactions.filter fun t => t.type == "xp").foldl
    (fun acc t =>
      let path := if t.path = "" then "Unknown" else t.path
      objSet acc path ((objGet acc path).getD 0 + t.amount))
    []

/-- The comparator (a, b) => b.amount - a.amount used by getCurrentLevel, as
the Boolean relation sorted by (descending amounts: a precedes b exactly when
the comparator result is at most 0). -/
def levelDescLe (a b : Transaction) : Bool := decide (b.amount ≤ a.amount)

/-- GraphQLService.getCurrentLevel: filter type equal level, sort by amount
descending (comparator (a, b) => b.amount - a.amount), then
levelTransactions[0]?.amount || 0. -/
def getCurrentLevel (transactions : List Transaction) : ℤ :=
  let levelTransactions :=
    (transactions.filter fun t => t.type == "level").mergeSort levelDescLe
  match levelTransactions.head? with
  | none => 0
  | some t => if t.amount = 0 then 0 else t.amount

/-! Helper lemmas for the aggregation functions. -/

theorem foldl_add_amount (l : List Transaction) (c : ℤ) :
    l.foldl (fun sum t => sum + t.amount) c = c + (l.map Transaction.amount).sum := by
  induction l generalizing c with
  | nil => simp
  | cons t rest ih =>
    simp only [List.foldl_cons, List.map_cons, List.sum_cons, ih]
    ring

theorem calculateTotalXP_eq_sum (transactions : List Transaction) :
    calculateTotalXP transactions
      = ((transactions.filter fun t => t.type == "xp").map Transaction.amount).sum := by
  simp [calculateTotalXP, foldl_add_amount]

theorem objValuesSum_objSet (acc : List (String × ℤ)) (key : String) (a : ℤ) :
    objValuesSum (objSet acc key ((objGet acc key).getD 0 + a)) = objValuesSum acc + a := by
  induction acc with
  | nil => simp [objGet, objSet, objValuesSum]
  | cons p rest ih =>
    by_cases h : p.1 = key
    · simp [objGet, objSet, objValuesSum, h, List.sum_cons]
      ring
    · simp only [objGet, objSet, objValuesSum, h, if_false, List.map_cons, List.sum_cons] at *
      omega

theorem groupXPByPath_foldl_sum (l : List Transaction) (acc : List (String × ℤ)) :
    objValuesSum (l.foldl
        (fun acc t =>
          let path := if t.path = "" then "Unknown" else t.path
          objSet acc path ((objGet acc path).getD 0 + t.amount)) acc)
      = objValuesSum acc + (l.map Transaction.amount).sum := by
  induction l generalizing acc with
  | nil => simp
  | cons t rest ih =>
    simp only [List.foldl_cons, List.map_cons, List.sum_cons, ih, objValuesSum_objSet]
    ring

/-- Claim C1: for every transaction list T, the values of xpByPath(T) (xp
transactions grouped by path, default key Unknown for an absent path, amounts
summed per group) sum to totalXP(T) (the sum of amounts of xp transactions). -/
theorem xpByPath_values_sum_eq_totalXP (T : List Transaction) :
    objValuesSum (groupXPByPath T) = calculateTotalXP T := by
  rw [groupXPByPath, groupXPByPath_foldl_sum, calculateTotalXP_eq_sum]
  simp [objValuesSum]

theorem getCurrentLevel_max_char (T : List Transaction) :
    ((T.filter fun t => t.type == "level") = [] ∧ getCurrentLevel T = 0)
    ∨ (∃ t ∈ T.filter fun t => t.type == "level",
        getCurrentLevel T = t.amount
        ∧ ∀ u ∈ T.filter fun t => t.type == "level", u.amount ≤ t.amount) := by
  have htrans : ∀ a b c : Transaction, levelDescLe a b = true → levelDescLe b c = true →
      levelDescLe a c = true := by
    intro a b c hab hbc
    simp only [levelDescLe, decide_eq_true_eq] at *
    omega
  have htotal : ∀ a b : Transaction, (levelDescLe a b || levelDescLe b a) = true := by
    intro a b
    simp only [levelDescLe, Bool.or_eq_true, decide_eq_true_eq]
    omega
  have hperm := List.mergeSort_perm (T.filter fun t => t.type == "level") levelDescLe
  have hsorted := List.sorted_mergeSort htrans htotal (T.filter fun t => t.type == "level")
  rcases hs : (T.filter fun t => t.type == "level").mergeSort levelDescLe with _ | ⟨t, rest⟩
  · left
    rw [hs] at hperm
    constructor
    · exact hperm.symm.eq_nil
    · simp only [getCurrentLevel]
      rw [hs]
      rfl
  · right
    rw [hs] at hperm hsorted
    refine ⟨t, hperm.mem_iff.mp (List.mem_cons_self t rest), ?_, ?_⟩
    · simp only [getCurrentLevel]
      rw [hs]
      simp only [List.head?_cons]
      by_cases h0 : t.amount = 0 <;> simp [h0]
    · intro u hu
      rcases List.mem_cons.mp (hperm.mem_iff.mpr hu) with h | h
      · exact le_of_eq (by rw [h])
      · have := (List.pairwise_cons.mp hsorted).1 u h
        simpa [levelDescLe, decide_eq_true_eq] using this

/-- Claim C2: getCurrentLevel returns 0 when the list has no transaction of
type level, and otherwise the maximum amount among the type level
transactions; the result is invariant under every permutation of the input
list. -/
theorem getCurrentLevel_spec (T : List Transaction) :
    ((T.filter fun t => t.type == "level") = [] → getCurrentLevel T = 0)
    ∧ ((T.filter fun t => t.type == "level") ≠ [] →
        (∃ t ∈ T.filter fun t => t.type == "level", getCurrentLevel T = t.amount)
        ∧ ∀ u ∈ T.filter (fun t => t.type == "level"), u.amount ≤ getCurrentLevel T)
    ∧ ∀ T2 : List Transaction, T.Perm T2 → getCurrentLevel T = getCurrentLevel T2 := by
  refine ⟨?_, ?_, ?_⟩
  · intro h
    rcases getCurrentLevel_max_char T with ⟨_, h0⟩ | ⟨t, ht, _, _⟩
    · exact h0
    · rw [h] at ht
      exact absurd ht (List.not_mem_nil t)
  · intro h
    rcases getCurrentLevel_max_char T with ⟨hnil, _⟩ | ⟨t, ht, heq, hmax⟩
    · exact absurd hnil h
    · exact ⟨⟨t, ht, heq⟩, fun u hu => heq ▸ hmax u hu⟩
  · intro T2 hperm
    have hpf : (T.filter fun t => t.type == "level").Perm
        (T2.filter fun t => t.type == "level") := hperm.filter _
    rcases getCurrentLevel_max_char T with ⟨hnil, h0⟩ | ⟨t, ht, heq, hmax⟩
    · rcases getCurrentLevel_max_char T2 with ⟨_, h0b⟩ | ⟨u, hu, _, _⟩
      · rw [h0, h0b]
      · rw [hnil] at hpf
        exact absurd (hpf.symm.mem_iff.mp hu) (List.not_mem_nil u)
    · rcases getCurrentLevel_max_char T2 with ⟨hnilb, _⟩ | ⟨u, hu, hequ, hmaxu⟩
      · rw [hnilb] at hpf
        exact absurd (hpf.mem_iff.mp ht) (List.not_mem_nil t)
      · rw [heq, hequ]
        exact le_antisymm (hmaxu t (hpf.mem_iff.mp ht)) (hmax u (hpf.symm.mem_iff.mp hu))

/-- Witness for claim C2, exercising the maximum and the permutation parts on
a concrete two-element list. -/
theorem getCurrentLevel_spec_witness :
    (([⟨"level", 3, 0, "", 0⟩, ⟨"level", 7, 1, "", 0⟩] : List Transaction).filter
        (fun t => t.type == "level")) ≠ []
    ∧ (∃ t ∈ ([⟨"level", 3, 0, "", 0⟩, ⟨"level", 7, 1, "", 0⟩] : List Transaction).filter
        (fun t => t.type == "level"),
        getCurrentLevel [⟨"level", 3, 0, "", 0⟩, ⟨"level", 7, 1, "", 0⟩] = t.amount)
    ∧ getCurrentLevel [⟨"level", 3, 0, "", 0⟩, ⟨"level", 7, 1, "", 0⟩]
        = getCurrentLevel [⟨"level", 7, 1, "", 0⟩, ⟨"level", 3, 0, "", 0⟩] :=
  ⟨by decide,
   ((getCurrentLevel_spec _).2.1 (by decide)).1,
   (getCurrentLevel_spec _).2.2 _ (List.Perm.swap _ _ _)⟩

/-! The User model (models/User.js). -/

/-- Fields of the userData argument to the User constructor; every optional
field may be absent (undefined). -/
structure UserData where
  login : Option String := none
  email : Option String := none
  firstName : Option String := none
  lastName : Option String := none
  auditRatio : Option ℚ := none
  totalUp : Option ℚ := none
  totalDown : Option ℚ := none
  progressesByPath : Option (List ProgressEntry) := none
  transactions : Option (List Transaction) := none
  xps : Option (List XPEntry) := none

/-- The User model object. -/
structure User where
  login : Option String
  email : Option String
  firstName : Option String
  lastName : Option String
  auditRatio : ℚ
  totalUp : ℚ
  totalDown : ℚ
  progressesByPath : List ProgressEntry
  transactions : List Transaction
  xps : List XPEntry
  level : ℤ

/-- The User constructor: every numeric field defaults through expr || 0 and
every collection through expr || [] (for a number, a present 0 and the
default agree, so getD is faithful); level is set to
this.transactions[0]?.amount || 0, reading the first element of the
transactions array whatever its type. -/
def User.make (userData : UserData) : User :=
  let transactions := userData.transactions.getD []
  { login := userData.login
    email := userData.email
    firstName := userData.firstName
    lastName := userData.lastName
    auditRatio := userData.auditRatio.getD 0
    totalUp := userData.totalUp.getD 0
    totalDown := userData.totalDown.getD 0
    progressesByPath := userData.progressesByPath.getD []
    transactions := transactions
    xps := userData.xps.getD []
    level :=
      match transactions.head? with
      | none => 0
      | some t => if t.amount = 0 then 0 else t.amount }

/-- The running-accumulator map of User.getXPOverTime: each xp transaction
becomes (date, value) where value is the accumulator after adding the
amount. -/
def xpOverTimeGo (accumulator : ℤ) : List Transaction → List (ℤ × ℤ)
  | [] => []
  | t :: rest =>
    (t.createdAt, accumulator + t.amount) :: xpOverTimeGo (accumulator + t.amount) rest

/-- User.getXPOverTime: filter type equal xp and map to cumulative
(date, value) pairs, starting from accumulator 0. -/
def User.getXPOverTime (u : User) : List (ℤ × ℤ) :=
  xpOverTimeGo 0 (u.transactions.filter fun t => t.type == "xp")

theorem xpOverTimeGo_getLast (l : List Transaction) :
    ∀ a : ℤ, l ≠ [] →
      (xpOverTimeGo a l).getLast?.map Prod.snd
        = some (a + (l.map Transaction.amount).sum) := by
  induction l with
  | nil => intro a h; exact absurd rfl h
  | cons t rest ih =>
    intro a _
    cases rest with
    | nil => simp [xpOverTimeGo]
    | cons u rest2 =>
      have h2 := ih (a + t.amount) (List.cons_ne_nil u rest2)
      rw [xpOverTimeGo] at h2
      rw [xpOverTimeGo, xpOverTimeGo, List.getLast?_cons_cons, h2]
      simp only [List.map_cons, List.sum_cons, Option.some.injEq]
      omega

theorem xpOverTimeGo_chain (l : List Transaction) :
    ∀ a : ℤ, (∀ t ∈ l, 0 ≤ t.amount) →
      List.Chain' (fun p q : ℤ × ℤ => p.2 ≤ q.2) (xpOverTimeGo a l) := by
  induction l with
  | nil => intro a _; simp [xpOverTimeGo]
  | cons t rest ih =>
    intro a h
    cases rest with
    | nil => simp [xpOverTimeGo]
    | cons u rest2 =>
      have hch := ih (a + t.amount) (fun x hx => h x (List.mem_cons_of_mem t hx))
      rw [xpOverTimeGo] at hch
      rw [xpOverTimeGo, xpOverTimeGo, List.chain'_cons]
      refine ⟨?_, hch⟩
      have hu : 0 ≤ u.amount := h u (by simp)
      simp only
      omega

/-- Claim C9: the User constructor sets level to the amount of the first
element of the supplied transactions array regardless of the type of that
transaction (and to 0 when the array is empty, absent, or the amount is the
falsy 0), so User.level can differ from the maximum amount among type level
transactions. -/
theorem user_level_first_transaction :
    (∀ (d : UserData) (t : Transaction) (ts : List Transaction),
        d.transactions = some (t :: ts) →
        (User.make d).level = if t.amount = 0 then 0 else t.amount)
    ∧ (∀ d : UserData, d.transactions = some [] ∨ d.transactions = none →
        (User.make d).level = 0)
    ∧ ∃ ts : List Transaction,
        (User.make { transactions := some ts }).level ≠ getCurrentLevel ts := by
  refine ⟨?_, ?_, ⟨[⟨"xp", 5, 0, "", 0⟩], ?_⟩⟩
  · intro d t ts h
    simp [User.make, h]
  · intro d h
    rcases h with h | h <;> simp [User.make, h]
  · have hf : (([⟨"xp", 5, 0, "", 0⟩] : List Transaction).filter
        fun t => t.type == "level") = [] := by decide
    have hlvl : getCurrentLevel [⟨"xp", 5, 0, "", 0⟩] = 0 := by
      simp [getCurrentLevel, hf, List.mergeSort_nil]
    rw [hlvl]
    simp [User.make]

/-- Witness for claim C9: a list whose first transaction has type xp and
amount 5 gives User.level 5 while getCurrentLevel gives 0. -/
theorem user_level_first_transaction_witness :
    (({ transactions := some [⟨"xp", 5, 0, "", 0⟩] } : UserData).transactions
        = some [⟨"xp", 5, 0, "", 0⟩])
    ∧ (User.make { transactions := some [⟨"xp", 5, 0, "", 0⟩] }).level
        = if (5 : ℤ) = 0 then 0 else 5 :=
  ⟨rfl, user_level_first_transaction.1 _ ⟨"xp", 5, 0, "", 0⟩ [] rfl⟩

/-- Claim C10: for every transaction list with at least one xp transaction,
the value of the last element of User.getXPOverTime equals calculateTotalXP
of the same list, and when all xp amounts are non-negative the cumulative
values are non-decreasing. -/
theorem getXPOverTime_last_cumulative (ts : List Transaction)
    (h : (ts.filter fun t => t.type == "xp") ≠ []) :
    ((User.make { transactions := some ts }).getXPOverTime.getLast?.map Prod.snd
        = some (calculateTotalXP ts))
    ∧ ((∀ t ∈ ts, t.type = "xp" → 0 ≤ t.amount) →
        List.Chain' (fun p q : ℤ × ℤ => p.2 ≤ q.2)
          (User.make { transactions := some ts }).getXPOverTime) := by
  have htr : (User.make { transactions := some ts }).transactions = ts := by
    simp [User.make]
  constructor
  · rw [User.getXPOverTime, htr, xpOverTimeGo_getLast _ 0 h, calculateTotalXP_eq_sum]
    simp
  · intro hnn
    rw [User.getXPOverTime, htr]
    refine xpOverTimeGo_chain _ 0 (fun t htm => ?_)
    have hmem := List.mem_filter.mp htm
    exact hnn t hmem.1 (by simpa using hmem.2)

/-- Witness for claim C10 on a concrete two-transaction list. -/
theorem getXPOverTime_last_cumulative_witness :
    (([⟨"xp", 5, 0, "", 0⟩, ⟨"xp", 3, 1, "", 0⟩] : List Transaction).filter
        (fun t => t.type == "xp")) ≠ []
    ∧ (∀ t ∈ ([⟨"xp", 5, 0, "", 0⟩, ⟨"xp", 3, 1, "", 0⟩] : List Transaction),
        t.type = "xp" → 0 ≤ t.amount)
    ∧ ((User.make
          { transactions := some [⟨"xp", 5, 0, "", 0⟩, ⟨"xp", 3, 1, "", 0⟩] }).getXPOverTime.getLast?.map
          Prod.snd
        = some (calculateTotalXP [⟨"xp", 5, 0, "", 0⟩, ⟨"xp", 3, 1, "", 0⟩]))
    ∧ List.Chain' (fun p q : ℤ × ℤ => p.2 ≤ q.2)
        (User.make
          { transactions := some [⟨"xp", 5, 0, "", 0⟩, ⟨"xp", 3, 1, "", 0⟩] }).getXPOverTime :=
  ⟨by decide, by decide,
   (getXPOverTime_last_cumulative _ (by decide)).1,
   (getXPOverTime_last_cumulative _ (by decide)).2 (by decide)⟩

/-! The profile-fetching caller (GraphQLService.getUserProfile), modelled
from the point where the GraphQL response body is in hand.  The thrown
exceptions are modelled as an error value: invalidResponse is the explicit
Error (Invalid response structure from GraphQL) thrown when the top-level
user record is missing, typeError is the implicit TypeError raised when a
property of an undefined collection is read (audits.length,
transactions.filter, progressesByPath.length). -/

/-- The two failure modes of getUserProfile. -/
inductive JSException where
  | invalidResponse : JSException
  | typeError : JSException
deriving DecidableEq, Repr

/-- The raw user record of the GraphQL response; each selected collection may
be absent in a malformed response. -/
structure RawUserRecord where
  login : Option String := none
  email : Option String := none
  firstName : Option String := none
  lastName : Option String := none
  campus : Option String := none
  auditRatio : Option ℚ := none
  totalUp : Option ℚ := none
  totalDown : Option ℚ := none
  xps : Option (List XPEntry) := none
  transactions : Option (List Transaction) := none
  audits : Option (List AuditEntry) := none
  progressesByPath : Option (List ProgressEntry) := none

/-- The data field of the GraphQL response; the user field may be absent. -/
structure GraphQLData where
  user : Option (List RawUserRecord)

/-- The structured profile object returned by getUserProfile, with the nested
basicInfo / auditInfo / xpInfo / progressInfo records flattened into one
record. -/
structure UserProfile where
  login : Option String
  email : Option String
  firstName : Option String
  lastName : Option String
  campus : Option String
  ratio : ℚ
  totalUp : ℚ
  totalDown : ℚ
  auditsperformed : ℕ
  auditsPassed : ℕ
  totalXP : ℤ
  xpByPath : List (String × ℤ)
  xps : List XPEntry
  xpTimeline : List (ℤ × ℤ × ℤ)
  totalProjects : ℕ
  succeededProjects : ℕ
  level : ℤ
deriving DecidableEq

/-- GraphQLService.getUserProfile after the query resolves: reject the
response when response, response.user or response.user[0] is missing, then
build the profile from the first user record.  Reading a property of an
absent collection raises a TypeError; the reads happen in source order
(audits.length first, then transactions, then progressesByPath), and only
xps is defaulted with || []. -/
def getUserProfile (response : Option GraphQLData) : Except JSException UserProfile :=
  match response with
  | none => Except.error JSException.invalidResponse
  | some data =>
    match data.user with
    | none => Except.error JSException.invalidResponse
    | some [] => Except.error JSException.invalidResponse
    | some (userData :: _) =>
      match userData.audits with
      | none => Except.error JSException.typeError
      | some audits =>
        match userData.transactions with
        | none => Except.error JSException.typeError
        | some transactions =>
          match userData.progressesByPath with
          | none => Except.error JSException.typeError
          | some progresses =>
            Except.ok
              { login := userData.login
                email := userData.email
                firstName := userData.firstName
                lastName := userData.lastName
                campus := userData.campus
                ratio := userData.auditRatio.getD 0
                totalUp := userData.totalUp.getD 0
                totalDown := userData.totalDown.getD 0
                auditsperformed := audits.length
                auditsPassed := (audits.filter fun a => 0 < a.grade.getD 0).length
                totalXP := calculateTotalXP transactions
                xpByPath := groupXPByPath transactions
                xps := userData.xps.getD []
                xpTimeline := createTimeline transactions
                totalProjects := progresses.length
                succeededProjects := (progresses.filter (·.succeeded)).length
                level := getCurrentLevel transactions }

/-- Whether an Except value is a success. -/
def exceptIsOk : Except JSException UserProfile → Bool
  | Except.ok _ => true
  | Except.error _ => false

/-- Counterexample to claim C5 as stated: a response that does carry a user
record, with audits and progressesByPath present but the transactions
collection absent, is not treated as having empty transactions: the call
fails with a TypeError instead of succeeding. -/
theorem getUserProfile_missing_collection_counterexample :
    getUserProfile
        (some ⟨some [{ audits := some [], progressesByPath := some [] }]⟩)
      = Except.error JSException.typeError
    ∧ exceptIsOk
        (getUserProfile
          (some ⟨some [{ audits := some [], progressesByPath := some [] }]⟩))
      = false := ⟨rfl, rfl⟩

/-- Claim C5, amended: getUserProfile fails with the missing-user error
exactly when the response carries no top-level user record; when a user
record is present, only a missing xps collection is treated as empty, while
a missing audits, transactions or progressesByPath collection raises a
TypeError; when those three collections are present the profile is built
without any failure. -/
theorem getUserProfile_spec (response : Option GraphQLData) :
    (getUserProfile response = Except.error JSException.invalidResponse ↔
      response = none ∨ ∃ d, response = some d ∧ (d.user = none ∨ d.user = some []))
    ∧ (∀ d u rest, response = some d → d.user = some (u :: rest) →
        ((u.audits = none ∨ u.transactions = none ∨ u.progressesByPath = none) ↔
          getUserProfile response = Except.error JSException.typeError))
    ∧ (∀ d u rest audits transactions progresses,
        response = some d → d.user = some (u :: rest) →
        u.audits = some audits → u.transactions = some transactions →
        u.progressesByPath = some progresses →
        ∃ p : UserProfile, getUserProfile response = Except.ok p
          ∧ p.xps = u.xps.getD []
          ∧ p.totalXP = calculateTotalXP transactions
          ∧ p.xpByPath = groupXPByPath transactions
          ∧ p.level = getCurrentLevel transactions) := by
  refine ⟨?_, ?_, ?_⟩
  · constructor
    · intro h
      match hr : response with
      | none => exact Or.inl rfl
      | some data =>
        refine Or.inr ⟨data, rfl, ?_⟩
        match hu : data.user with
        | none => exact Or.inl rfl
        | some [] => exact Or.inr rfl
        | some (userData :: rest) =>
          exfalso
          simp only [getUserProfile, hu] at h
          rcases ha : userData.audits with _ | audits <;> rw [ha] at h
          · exact JSException.noConfusion (Except.error.inj h)
          · rcases ht : userData.transactions with _ | transactions <;> rw [ht] at h
            · exact JSException.noConfusion (Except.error.inj h)
            · rcases hp : userData.progressesByPath with _ | progresses <;> rw [hp] at h
              · exact JSException.noConfusion (Except.error.inj h)
              · exact Except.noConfusion h
    · intro h
      rcases h with h | ⟨d, hd, h⟩
      · rw [h]; rfl
      · rcases h with h | h <;> rw [hd] <;> simp only [getUserProfile, h]
  · intro d u rest hd hu
    rw [hd]
    simp only [getUserProfile, hu]
    constructor
    · intro h
      rcases h with h | h | h
      · rw [h]
      · rcases ha : u.audits with _ | audits
        · rfl
        · rw [h]
      · rcases ha : u.audits with _ | audits
        · rfl
        · rcases ht : u.transactions with _ | transactions
          · rfl
          · rw [h]
    · intro h
      by_contra hc
      push_neg at hc
      obtain ⟨ha, ht, hp⟩ := hc
      rcases ha2 : u.audits with _ | audits
      · exact ha ha2
      · rcases ht2 : u.transactions with _ | transactions
        · exact ht ht2
        · rcases hp2 : u.progressesByPath with _ | progresses
          · exact hp hp2
          · rw [ha2, ht2, hp2] at h
            exact Except.noConfusion h
  · intro d u rest audits transactions progresses hd hu ha ht hp
    subst hd
    cases hgp : getUserProfile (some d) with
    | error e =>
      exfalso
      simp only [getUserProfile, hu, ha, ht, hp] at hgp
      exact Except.noConfusion hgp
    | ok p =>
      have hgp2 := hgp
      simp only [getUserProfile, hu, ha, ht, hp] at hgp2
      have hpe := Except.ok.inj hgp2
      subst hpe
      exact ⟨_, rfl, rfl, rfl, rfl, rfl⟩

/-- A concrete user record with all three required collections supplied and
xps absent, used by the C5 witness. -/
def sampleUserRecord : RawUserRecord :=
  { audits := some [], transactions := some [], progressesByPath := some [] }

/-- The concrete response around sampleUserRecord. -/
def sampleResponse : GraphQLData := ⟨some [sampleUserRecord]⟩

/-- Witness for claim C5 at a concrete response whose user record is present
with all three required collections supplied and xps absent. -/
theorem getUserProfile_spec_witness :
    (some sampleResponse = some sampleResponse)
    ∧ sampleResponse.user = some (sampleUserRecord :: [])
    ∧ ∃ p : UserProfile,
        getUserProfile (some sampleResponse) = Except.ok p
        ∧ p.xps = sampleUserRecord.xps.getD []
        ∧ p.totalXP = calculateTotalXP []
        ∧ p.xpByPath = groupXPByPath []
        ∧ p.level = getCurrentLevel [] :=
  ⟨rfl, rfl,
   (getUserProfile_spec _).2.2 sampleResponse sampleUserRecord
     [] [] [] [] rfl rfl rfl rfl rfl⟩

/-! Chart geometry.  JavaScript chart arithmetic can produce NaN or an
infinity; JSNum.undef stands for every non-finite value.  JavaScript never
throws on arithmetic, so a division by zero silently yields a non-finite
value that propagates. -/

/-- A JavaScript number in chart arithmetic: either some non-finite value
(NaN, plus or minus infinity) or a finite rational. -/
inductive JSNum where
  | undef : JSNum
  | fin : ℚ → JSNum
deriving DecidableEq, Repr

/-- JavaScript addition: finite exactly when both operands are finite. -/
def JSNum.add : JSNum → JSNum → JSNum
  | JSNum.fin a, JSNum.fin b => JSNum.fin (a + b)
  | _, _ => JSNum.undef

/-- JavaScript subtraction: finite exactly when both operands are finite. -/
def JSNum.sub : JSNum → JSNum → JSNum
  | JSNum.fin a, JSNum.fin b => JSNum.fin (a - b)
  | _, _ => JSNum.undef

/-- JavaScript multiplication: finite exactly when both operands are
finite. -/
def JSNum.mul : JSNum → JSNum → JSNum
  | JSNum.fin a, JSNum.fin b => JSNum.fin (a * b)
  | _, _ => JSNum.undef

/-- JavaScript division by a directly computed finite number: a / 0 is NaN
(for a = 0) or an infinity (otherwise), hence undef.  Every divisor in the
embedded chart code is a finite number computed straight from the input, so
the divisor is a plain rational. -/
def JSNum.div : JSNum → ℚ → JSNum
  | JSNum.fin a, b => if b = 0 then JSNum.undef else JSNum.fin (a / b)
  | JSNum.undef, _ => JSNum.undef

/-- A point of the xpData array passed to calculateTimelinePath: only the
amount field is read. -/
structure XPPoint where
  amount : ℚ
deriving DecidableEq, Repr

/-- The indexed map inside calculateTimelinePath: point i gets
x = (i / (count - 1)) * 100 and y = 50 - (amount / maxXP) * 50, where count
is the length of the whole array and maxXP the maximum amount. -/
def timelinePoints (maxXP : ℚ) (count : ℕ) : ℕ → List XPPoint → List (JSNum × JSNum)
  | _, [] => []
  | i, d :: rest =>
    (((JSNum.fin i).div ((count : ℚ) - 1)).mul (JSNum.fin 100),
      (JSNum.fin 50).sub (((JSNum.fin d.amount).div maxXP).mul (JSNum.fin 50)))
      :: timelinePoints maxXP count (i + 1) rest

/-- SVGUtils.calculateTimelinePath: empty input gives the empty path;
otherwise maxXP is Math.max over all amounts and each point is mapped to its
(x, y) pair.  The source then joins the pairs into the SVG path string (M
before the first pair, L before the rest), which adds no numeric content. -/
def calculateTimelinePath (xpData : List XPPoint) : List (JSNum × JSNum) :=
  match xpData with
  | [] => []
  | d :: rest =>
    timelinePoints ((rest.map XPPoint.amount).foldl max d.amount)
      (d :: rest).length 0 (d :: rest)

theorem timelinePoints_map_snd (maxXP : ℚ) (count : ℕ) (l : List XPPoint) :
    ∀ i : ℕ, (timelinePoints maxXP count i l).map Prod.snd
      = l.map fun d =>
          (JSNum.fin 50).sub (((JSNum.fin d.amount).div maxXP).mul (JSNum.fin 50)) := by
  induction l with
  | nil => intro i; simp [timelinePoints]
  | cons d rest ih => intro i; simp [timelinePoints, ih (i + 1)]

theorem foldl_max_const (l : List ℚ) :
    ∀ a : ℚ, (∀ x ∈ l, x = a) → l.foldl max a = a := by
  induction l with
  | nil => intro a _; rfl
  | cons x rest ih =>
    intro a h
    have hx : x = a := h x (by simp)
    simp only [List.foldl_cons, hx, max_self]
    exact ih a fun y hy => h y (List.mem_cons_of_mem x hy)

/-- Counterexample to claim C3 as stated: for a single-point input the
emitted x coordinate is NaN (the divisor count - 1 is 0 and 0 / 0 is NaN,
with no substitution), not 0. -/
theorem calculateTimelinePath_single_counterexample :
    (calculateTimelinePath [⟨5⟩]).map Prod.fst = [JSNum.undef]
    ∧ JSNum.undef ≠ JSNum.fin 0 := by
  refine ⟨?_, fun h => JSNum.noConfusion h⟩
  simp [calculateTimelinePath, timelinePoints, JSNum.div, JSNum.mul]

/-- Claim C3, amended: for a single-point input the emitted x coordinate is
NaN, because the divisor count - 1 is 0 and is not substituted; when all
amounts are equal and non-zero every y coordinate is the finite value 0;
when all amounts are 0 the divisor maxAmount is 0 and every y coordinate is
NaN rather than finite. -/
theorem calculateTimelinePath_degenerate (pts : List XPPoint) (a : ℚ) :
    (∀ b : ℚ, (calculateTimelinePath [⟨b⟩]).map Prod.fst = [JSNum.undef])
    ∧ (pts ≠ [] → (∀ p ∈ pts, p.amount = a) → a ≠ 0 →
        (calculateTimelinePath pts).map Prod.snd
          = List.replicate pts.length (JSNum.fin 0))
    ∧ (pts ≠ [] → (∀ p ∈ pts, p.amount = 0) →
        (calculateTimelinePath pts).map Prod.snd
          = List.replicate pts.length JSNum.undef) := by
  refine ⟨?_, ?_, ?_⟩
  · intro b
    simp [calculateTimelinePath, timelinePoints, JSNum.div, JSNum.mul]
  · intro hne hall ha
    match pts, hne with
    | d :: rest, _ =>
      have hmax : (rest.map XPPoint.amount).foldl max d.amount = a := by
        rw [hall d (by simp)]
        exact foldl_max_const _ _ fun x hx => by
          obtain ⟨p, hp, hpa⟩ := List.mem_map.mp hx
          rw [← hpa, hall p (List.mem_cons_of_mem d hp)]
      rw [calculateTimelinePath, hmax, timelinePoints_map_snd]
      rw [List.eq_replicate_iff]
      refine ⟨by simp, ?_⟩
      intro b hb
      obtain ⟨p, hp, hpb⟩ := List.mem_map.mp hb
      rw [← hpb, hall p hp, JSNum.div, if_neg ha, div_self ha]
      simp [JSNum.mul, JSNum.sub]
  · intro hne hall
    match pts, hne with
    | d :: rest, _ =>
      have hmax : (rest.map XPPoint.amount).foldl max d.amount = 0 := by
        rw [hall d (by simp)]
        exact foldl_max_const _ _ fun x hx => by
          obtain ⟨p, hp, hpa⟩ := List.mem_map.mp hx
          rw [← hpa, hall p (List.mem_cons_of_mem d hp)]
      rw [calculateTimelinePath, hmax, timelinePoints_map_snd]
      rw [List.eq_replicate_iff]
      refine ⟨by simp, ?_⟩
      intro b hb
      obtain ⟨p, hp, hpb⟩ := List.mem_map.mp hb
      rw [← hpb, JSNum.div, if_pos rfl]
      simp [JSNum.mul, JSNum.sub]

/-- Witness for claim C3 on the concrete all-equal list of two points of
amount 3. -/
theorem calculateTimelinePath_degenerate_witness :
    ([⟨3⟩, ⟨3⟩] : List XPPoint) ≠ []
    ∧ (∀ p ∈ ([⟨3⟩, ⟨3⟩] : List XPPoint), p.amount = 3)
    ∧ (3 : ℚ) ≠ 0
    ∧ (calculateTimelinePath [⟨3⟩, ⟨3⟩]).map Prod.snd
        = List.replicate ([⟨3⟩, ⟨3⟩] : List XPPoint).length (JSNum.fin 0) :=
  ⟨by simp, by simp, by simp,
   (calculateTimelinePath_degenerate [⟨3⟩, ⟨3⟩] 3).2.1 (by simp) (by simp) (by simp)⟩

/-- An SVG rect element of the audit ratio chart. -/
structure SVGRect where
  x : JSNum
  y : JSNum
  width : JSNum
  height : JSNum
deriving DecidableEq, Repr

/-- The forEach loop of createAuditRatioChart: the bar at index gets
barHeight = (key / maxAttributeValue) * 100, x = index * barWidth,
y = 100 - barHeight, width = barWidth - 2 (spacing between bars). -/
def auditBars (maxAttributeValue barWidth : ℚ) : ℕ → List ℚ → List SVGRect
  | _, [] => []
  | index, key :: rest =>
    let barHeight := ((JSNum.fin key).div maxAttributeValue).mul (JSNum.fin 100)
    { x := JSNum.fin (index * barWidth)
      y := (JSNum.fin 100).sub barHeight
      width := JSNum.fin (barWidth - 2)
      height := barHeight } :: auditBars maxAttributeValue barWidth (index + 1) rest

/-- SVGUtils.createAuditRatioChart: keys = [up, down],
maxAttributeValue = Math.max(...keys), barWidth = 100 / keys.length. -/
def createAuditRatioChart (up down : ℚ) : List SVGRect :=
  let keys : List ℚ := [up, down]
  auditBars (max up down) (100 / (keys.length : ℚ)) 0 keys

/-- Counterexample to claim C6 as stated: with both values 0 the maximum is
0 and each bar height is NaN (0 / 0 with no guard), not 0. -/
theorem createAuditRatioChart_zero_counterexample :
    (createAuditRatioChart 0 0).map SVGRect.height = [JSNum.undef, JSNum.undef]
    ∧ JSNum.undef ≠ JSNum.fin 0 := by
  refine ⟨?_, fun h => JSNum.noConfusion h⟩
  simp [createAuditRatioChart, auditBars, JSNum.div, JSNum.mul]

/-- Claim C6, amended: the chart always receives the two values [up, down];
with non-negative values not both 0, it emits 2 bars of column width
100 / 2 = 50 at x = 0 and x = 50, each of height (value / max) * 100 and
anchored at the bottom (y = 100 - height), the drawn width being the column
width minus 2; when both values are 0 each bar height is NaN (0 / 0, no
guard), not 0. -/
theorem createAuditRatioChart_spec (up down : ℚ) (hu : 0 ≤ up) (hd : 0 ≤ down) :
    (¬(up = 0 ∧ down = 0) →
      createAuditRatioChart up down =
        [SVGRect.mk (JSNum.fin 0) (JSNum.fin (100 - up / max up down * 100))
            (JSNum.fin 48) (JSNum.fin (up / max up down * 100)),
          SVGRect.mk (JSNum.fin 50) (JSNum.fin (100 - down / max up down * 100))
            (JSNum.fin 48) (JSNum.fin (down / max up down * 100))])
    ∧ (up = 0 ∧ down = 0 →
        (createAuditRatioChart up down).map SVGRect.height
          = [JSNum.undef, JSNum.undef]) := by
  constructor
  · intro h
    have hmax : max up down ≠ 0 := by
      rcases not_and_or.mp h with h1 | h1
      · exact ne_of_gt (lt_max_iff.mpr (Or.inl (lt_of_le_of_ne hu (Ne.symm h1))))
      · exact ne_of_gt (lt_max_iff.mpr (Or.inr (lt_of_le_of_ne hd (Ne.symm h1))))
    simp only [createAuditRatioChart, auditBars, JSNum.div, if_neg hmax, JSNum.mul,
      JSNum.sub, List.length_cons, List.length_nil]
    norm_num
  · rintro ⟨h1, h2⟩
    subst h1; subst h2
    simp [createAuditRatioChart, auditBars, JSNum.div, JSNum.mul]

/-- Witness for claim C6 at the concrete values up = 4, down = 2. -/
theorem createAuditRatioChart_spec_witness :
    (0 : ℚ) ≤ 4 ∧ (0 : ℚ) ≤ 2 ∧ ¬((4 : ℚ) = 0 ∧ (2 : ℚ) = 0)
    ∧ createAuditRatioChart 4 2 =
        [SVGRect.mk (JSNum.fin 0) (JSNum.fin (100 - 4 / max (4 : ℚ) 2 * 100))
            (JSNum.fin 48) (JSNum.fin (4 / max (4 : ℚ) 2 * 100)),
          SVGRect.mk (JSNum.fin 50) (JSNum.fin (100 - 2 / max (4 : ℚ) 2 * 100))
            (JSNum.fin 48) (JSNum.fin (2 / max (4 : ℚ) 2 * 100))] :=
  ⟨by simp, by simp, by simp,
   (createAuditRatioChart_spec 4 2 (by simp) (by simp)).1 (by simp)⟩

/-! The donut chart (ProfileView.renderProjectPieChart). -/

/-- Math.round lifted to JSNum: Math.round of NaN is NaN. -/
def jsRoundNum : JSNum → JSNum
  | JSNum.undef => JSNum.undef
  | JSNum.fin q => JSNum.fin (jsRound q)

/-- One donut slice: start and end angle, angular span, and the rounded
whole-number percentage carried as data-percentage.  Angles are in degrees;
the source works in radians (startAngle = -PI/2, angleSize =
percentage * PI * 2), which is -90 and percentage * 360 in degrees. -/
structure PieSlice where
  start : JSNum
  stop : JSNum
  span : JSNum
  pct : JSNum
deriving DecidableEq, Repr

/-- The forEach loop over the sorted project amounts: percentage =
amount / totalXP, angleSize = percentage * 360 (degrees), the next slice
starts where this one ends. -/
def pieSlicesGo (totalXP : ℤ) : JSNum → List ℤ → List PieSlice
  | _, [] => []
  | startAngle, amount :: rest =>
    let percentage := (JSNum.fin (amount : ℚ)).div (totalXP : ℚ)
    let angleSize := percentage.mul (JSNum.fin 360)
    let endAngle := startAngle.add angleSize
    { start := startAngle
      stop := endAngle
      span := angleSize
      pct := jsRoundNum (percentage.mul (JSNum.fin 100)) }
      :: pieSlicesGo totalXP endAngle rest

/-- The slice loop started at -90 degrees (pointing up), proceeding
clockwise. -/
def pieSlices (amounts : List ℤ) (totalXP : ℤ) : List PieSlice :=
  pieSlicesGo totalXP (JSNum.fin (-90)) amounts

/-- A projectXP entry of renderProjectPieChart: the trailing path segment,
the amount converted to whole kilobytes, and the original path. -/
structure PieProject where
  project : List Char
  amount : ℤ
  path : String
deriving DecidableEq, Repr

/-- The comparator (a, b) => b.amount - a.amount used to sort projectXP
descending. -/
def projDescLe (a b : PieProject) : Bool := decide (b.amount ≤ a.amount)

/-- The fixed separator of the Bahrain-module filter. -/
def bhSep : List Char := "/bahrain/bh-module/".data

/-- JavaScript String.includes for a non-empty search string: some suffix of
the receiver starts with the search string. -/
def strHasSub (sub : List Char) : List Char → Bool
  | [] => sub.isPrefixOf []
  | c :: rest => sub.isPrefixOf (c :: rest) || strHasSub sub rest

/-- JavaScript String.split with a non-empty separator: scan character by
character, emitting the accumulated chunk whenever the separator occurs and
then skipping the remaining separator characters (counted by skip). -/
def strSplitGo (sep : List Char) : List Char → ℕ → List Char → List (List Char)
  | [], _, acc => [acc.reverse]
  | _ :: rest, skip + 1, acc => strSplitGo sep rest skip acc
  | c :: rest, 0, acc =>
    if sep.isPrefixOf (c :: rest) then
      acc.reverse :: strSplitGo sep rest (sep.length - 1) []
    else
      strSplitGo sep rest 0 (c :: acc)

/-- JavaScript s.split(sep) for a non-empty separator. -/
def strSplit (s sep : List Char) : List (List Char) := strSplitGo sep s 0 []

/-- The Bahrain-module filter of renderProjectPieChart: the path must be
truthy and contain the separator, path.split(separator) must have exactly
two parts, and the part after the separator must contain no further
slash. -/
def bahrainFilter (path : String) : Bool :=
  if path = "" then false
  else if !(strHasSub bhSep path.data) then false
  else
    let parts := strSplit path.data bhSep
    if parts.length ≠ 2 then false
    else !(strHasSub ['/'] (parts.getD 1 []))

/-- The scene produced by renderProjectPieChart: either the single no-data
placeholder message (one primitive, no arc paths), or the donut with its
centre total and its arc-path slices. -/
inductive PieScene where
  | placeholder : PieScene
  | chart (totalXP : ℤ) (slices : List PieSlice) : PieScene
deriving DecidableEq, Repr

theorem foldl_add_pieAmount (l : List PieProject) (c : ℤ) :
    l.foldl (fun sum p => sum + p.amount) c = c + (l.map PieProject.amount).sum := by
  induction l generalizing c with
  | nil => simp
  | cons p rest ih =>
    simp only [List.foldl_cons, List.map_cons, List.sum_cons, ih]
    ring

/-- ProfileView.renderProjectPieChart: filter the xpByPath entries through
the Bahrain-module filter, map each to (trailing segment,
Math.round(amount / 1000), path); an empty result renders the placeholder;
otherwise sort descending by amount, total the amounts with reduce, and
build the slices. -/
def renderProjectPieChart (xpByPath : List (String × ℤ)) : PieScene :=
  let projectXP := (xpByPath.filter fun e => bahrainFilter e.1).map fun e =>
    PieProject.mk ((strSplit e.1.data bhSep).getD 1 []) (jsRound ((e.2 : ℚ) / 1000)) e.1
  if projectXP = [] then PieScene.placeholder
  else
    let sorted := projectXP.mergeSort projDescLe
    let totalXP := sorted.foldl (fun sum p => sum + p.amount) 0
    PieScene.chart totalXP (pieSlices (sorted.map PieProject.amount) totalXP)

theorem pieSlicesGo_map_span (totalXP : ℤ) (h : totalXP ≠ 0) (l : List ℤ) :
    ∀ s : JSNum, (pieSlicesGo totalXP s l).map PieSlice.span
      = l.map fun w : ℤ => JSNum.fin ((w : ℚ) / (totalXP : ℚ) * 360) := by
  induction l with
  | nil => intro s; simp [pieSlicesGo]
  | cons w rest ih =>
    intro s
    simp [pieSlicesGo, JSNum.div, h, JSNum.mul, ih]

theorem pieSlicesGo_map_pct (totalXP : ℤ) (h : totalXP ≠ 0) (l : List ℤ) :
    ∀ s : JSNum, (pieSlicesGo totalXP s l).map PieSlice.pct
      = l.map fun w : ℤ => JSNum.fin (jsRound ((w : ℚ) / (totalXP : ℚ) * 100)) := by
  induction l with
  | nil => intro s; simp [pieSlicesGo]
  | cons w rest ih =>
    intro s
    simp [pieSlicesGo, JSNum.div, h, JSNum.mul, jsRoundNum, ih]

theorem pieSlicesGo_head_start (totalXP : ℤ) (l : List ℤ) (hne : l ≠ []) (s : JSNum) :
    (pieSlicesGo totalXP s l).head?.map PieSlice.start = some s := by
  match l, hne with
  | w :: rest, _ => simp [pieSlicesGo]

theorem pieSlicesGo_chain (totalXP : ℤ) (l : List ℤ) :
    ∀ s : JSNum, List.Chain' (fun p q => q.start = p.stop) (pieSlicesGo totalXP s l) := by
  induction l with
  | nil => intro s; simp [pieSlicesGo]
  | cons w rest ih =>
    intro s
    rw [pieSlicesGo, List.chain'_cons']
    refine ⟨?_, ih _⟩
    intro y hy
    cases rest with
    | nil => simp [pieSlicesGo] at hy
    | cons w2 rest2 =>
      rw [pieSlicesGo] at hy
      simp only [List.head?_cons, Option.mem_def, Option.some.injEq] at hy
      rw [← hy]

theorem pieSlicesGo_length (totalXP : ℤ) (l : List ℤ) :
    ∀ s : JSNum, (pieSlicesGo totalXP s l).length = l.length := by
  induction l with
  | nil => intro s; simp [pieSlicesGo]
  | cons w rest ih => intro s; simp [pieSlicesGo, ih]

theorem map_div_mul_sum (l : List ℤ) (S c : ℚ) :
    (l.map fun w : ℤ => (w : ℚ) / S * c).sum = (l.sum : ℚ) / S * c := by
  induction l with
  | nil => simp
  | cons w rest ih =>
    simp only [List.map_cons, List.sum_cons, ih]
    push_cast
    ring

theorem jsRound_err (x : ℚ) : |((jsRound x : ℤ) : ℚ) - x| ≤ 1 / 2 := by
  rw [abs_le, jsRound]
  have h1 := Int.floor_le (x + 1/2)
  have h2 := Int.lt_floor_add_one (x + 1/2)
  constructor <;> linarith

theorem roundSum_err (l : List ℚ) :
    |(l.map fun x => ((jsRound x : ℤ) : ℚ)).sum - l.sum| ≤ (l.length : ℚ) / 2 := by
  induction l with
  | nil => simp
  | cons x rest ih =>
    simp only [List.map_cons, List.sum_cons, List.length_cons]
    have harr : ((jsRound x : ℤ) : ℚ) + (rest.map fun x => ((jsRound x : ℤ) : ℚ)).sum
          - (x + rest.sum)
        = (((jsRound x : ℤ) : ℚ) - x)
          + ((rest.map fun x => ((jsRound x : ℤ) : ℚ)).sum - rest.sum) := by ring
    rw [harr]
    refine le_trans (abs_add _ _) ?_
    have h1 := jsRound_err x
    push_cast
    linarith

theorem cast_sum_map_jsRound (l : List ℚ) :
    (((l.map jsRound).sum : ℤ) : ℚ) = (l.map fun x => ((jsRound x : ℤ) : ℚ)).sum := by
  rw [Int.cast_list_sum, List.map_map]
  rfl

/-- Claim C4: for every weight list with positive sum S (as the sorted
kilobyte amounts fed to the slice loop are), the slices are laid out
consecutively (each start angle is the previous stop angle) starting at -90
degrees, slice i has angular span (weight i / S) * 360 degrees, the spans
sum to exactly 360 degrees, and the independently rounded whole-number
percentages sum to within N - 1 of 100. -/
theorem pieSlices_spec (ws : List ℤ) (h : 0 < ws.sum) :
    ((pieSlices ws ws.sum).map PieSlice.span
        = ws.map fun w : ℤ => JSNum.fin ((w : ℚ) / (ws.sum : ℚ) * 360))
    ∧ ((ws.map fun w : ℤ => (w : ℚ) / (ws.sum : ℚ) * 360).sum = 360)
    ∧ ((pieSlices ws ws.sum).head?.map PieSlice.start = some (JSNum.fin (-90)))
    ∧ List.Chain' (fun p q => q.start = p.stop) (pieSlices ws ws.sum)
    ∧ ((pieSlices ws ws.sum).map PieSlice.pct
        = ws.map fun w : ℤ => JSNum.fin (jsRound ((w : ℚ) / (ws.sum : ℚ) * 100)))
    ∧ 100 - ((ws.length : ℤ) - 1)
        ≤ (ws.map fun w : ℤ => jsRound ((w : ℚ) / (ws.sum : ℚ) * 100)).sum
    ∧ (ws.map fun w : ℤ => jsRound ((w : ℚ) / (ws.sum : ℚ) * 100)).sum
        ≤ 100 + ((ws.length : ℤ) - 1) := by
  have hSZ : ws.sum ≠ 0 := ne_of_gt h
  have hS : (ws.sum : ℚ) ≠ 0 := Int.cast_ne_zero.mpr hSZ
  have hne : ws ≠ [] := by
    intro h0
    rw [h0] at h
    simp at h
  have hsum100 : (ws.map fun w : ℤ => (w : ℚ) / (ws.sum : ℚ) * 100).sum = 100 := by
    rw [map_div_mul_sum, div_self hS, one_mul]
  set P : ℤ := (ws.map fun w : ℤ => jsRound ((w : ℚ) / (ws.sum : ℚ) * 100)).sum with hP
  have hbound : |(P : ℚ) - 100| ≤ (ws.length : ℚ) - 1 := by
    have hmm : (ws.map fun w : ℤ => jsRound ((w : ℚ) / (ws.sum : ℚ) * 100))
        = (ws.map fun w : ℤ => (w : ℚ) / (ws.sum : ℚ) * 100).map jsRound := by
      rw [List.map_map]
      rfl
    rcases Nat.lt_or_ge ws.length 2 with h2 | h2
    · have hl1 : ws.length = 1 := by
        rcases hl : ws.length with _ | n
        · rw [List.length_eq_zero] at hl
          exact absurd hl hne
        · omega
      obtain ⟨w, hw⟩ := List.length_eq_one.mp hl1
      rw [hP, hw]
      have hws : ([w] : List ℤ).sum = w := by simp
      have hSw : ((([w] : List ℤ).sum : ℤ) : ℚ) ≠ 0 := by
        rw [← hw]
        exact hS
      simp only [hws] at hSw
      simp only [hws, List.map_cons, List.map_nil, List.sum_cons, List.sum_nil, add_zero,
        div_self hSw, one_mul, hw, List.length_cons, List.length_nil]
      have hr100 : jsRound (100 : ℚ) = 100 := by norm_num [jsRound]
      rw [hr100]
      norm_num
    · have herr := roundSum_err (ws.map fun w : ℤ => (w : ℚ) / (ws.sum : ℚ) * 100)
      rw [hsum100, List.length_map] at herr
      rw [hP, hmm, cast_sum_map_jsRound]
      have hlen2 : (2 : ℚ) ≤ (ws.length : ℚ) := by exact_mod_cast h2
      have hhalf : (ws.length : ℚ) / 2 ≤ (ws.length : ℚ) - 1 := by linarith
      exact le_trans herr hhalf
  have hb1 := (abs_le.mp hbound).1
  have hb2 := (abs_le.mp hbound).2
  refine ⟨?_, ?_, ?_, ?_, ?_, ?_, ?_⟩
  · exact pieSlicesGo_map_span _ hSZ _ _
  · rw [map_div_mul_sum, div_self hS, one_mul]
  · exact pieSlicesGo_head_start _ _ hne _
  · exact pieSlicesGo_chain _ _ _
  · exact pieSlicesGo_map_pct _ hSZ _ _
  · have hc : ((100 - ((ws.length : ℤ) - 1) : ℤ) : ℚ) ≤ (P : ℚ) := by
      push_cast
      linarith
    exact_mod_cast hc
  · have hc : (P : ℚ) ≤ ((100 + ((ws.length : ℤ) - 1) : ℤ) : ℚ) := by
      push_cast
      linarith
    exact_mod_cast hc

/-- Witness for claim C4 at the concrete weight list [50, 30, 20]. -/
theorem pieSlices_spec_witness :
    0 < ([50, 30, 20] : List ℤ).sum
    ∧ ((pieSlices [50, 30, 20] ([50, 30, 20] : List ℤ).sum).head?.map PieSlice.start
        = some (JSNum.fin (-90)))
    ∧ List.Chain' (fun p q => q.start = p.stop)
        (pieSlices [50, 30, 20] ([50, 30, 20] : List ℤ).sum)
    ∧ 100 - ((([50, 30, 20] : List ℤ).length : ℤ) - 1)
        ≤ (([50, 30, 20] : List ℤ).map
            fun w : ℤ => jsRound ((w : ℚ) / (([50, 30, 20] : List ℤ).sum : ℚ) * 100)).sum :=
  ⟨by decide,
   (pieSlices_spec [50, 30, 20] (by decide)).2.2.1,
   (pieSlices_spec [50, 30, 20] (by decide)).2.2.2.1,
   (pieSlices_spec [50, 30, 20] (by decide)).2.2.2.2.2.1⟩

theorem pieSlicesGo_map_pct_zero (l : List ℤ) :
    ∀ s : JSNum, (pieSlicesGo 0 s l).map PieSlice.pct
      = List.replicate l.length JSNum.undef := by
  induction l with
  | nil => intro s; simp [pieSlicesGo]
  | cons w rest ih =>
    intro s
    simp [pieSlicesGo, JSNum.div, JSNum.mul, jsRoundNum, ih, List.replicate_succ]

/-- Counterexample to claim C7 as stated: the input with the single matching
path /bahrain/bh-module/foo and amount 0 has zero total, yet the scene is
not the placeholder: it is a chart whose single slice has NaN span and NaN
percentage, because percentage = 0 / 0 was computed. -/
theorem renderProjectPieChart_zeroTotal_counterexample :
    renderProjectPieChart [("/bahrain/bh-module/foo", 0)]
      = PieScene.chart 0
          [PieSlice.mk (JSNum.fin (-90)) JSNum.undef JSNum.undef JSNum.undef]
    ∧ PieScene.chart 0
          [PieSlice.mk (JSNum.fin (-90)) JSNum.undef JSNum.undef JSNum.undef]
        ≠ PieScene.placeholder
    ∧ JSNum.undef ≠ JSNum.fin 0 := by
  refine ⟨?_, fun hc => PieScene.noConfusion hc, fun hc => JSNum.noConfusion hc⟩
  have hbf : bahrainFilter "/bahrain/bh-module/foo" = true := by decide
  have hseg : (strSplit "/bahrain/bh-module/foo".data bhSep).getD 1 [] = "foo".data := by
    decide
  have hamt : jsRound (((0 : ℤ) : ℚ) / 1000) = 0 := by norm_num [jsRound]
  simp only [renderProjectPieChart, List.filter_cons, hbf, if_true, List.filter_nil,
    List.map_cons, List.map_nil, hseg, hamt]
  rw [if_neg (by simp)]
  rw [List.mergeSort_singleton]
  simp only [List.foldl_cons, List.foldl_nil, zero_add, List.map_cons, List.map_nil]
  simp [pieSlices, pieSlicesGo, JSNum.div, JSNum.mul, JSNum.add, jsRoundNum]

/-- Claim C7, amended: when the Bahrain-module filter leaves no matching
entry the scene is exactly the single placeholder primitive with no arc
paths and no division is performed; but a zero-total input with at least one
matching entry is rendered as a chart whose every slice percentage is NaN
(0 / 0), so division by zero does occur for such inputs. -/
theorem renderProjectPieChart_spec (xpByPath : List (String × ℤ)) :
    ((xpByPath.filter fun e => bahrainFilter e.1) = [] →
      renderProjectPieChart xpByPath = PieScene.placeholder)
    ∧ (∀ tot slices, renderProjectPieChart xpByPath = PieScene.chart tot slices →
        tot = 0 →
        slices.map PieSlice.pct = List.replicate slices.length JSNum.undef) := by
  constructor
  · intro h
    simp [renderProjectPieChart, h]
  · intro tot slices hrender htot
    simp only [renderProjectPieChart] at hrender
    split at hrender
    · exact PieScene.noConfusion hrender
    · rw [PieScene.chart.injEq] at hrender
      obtain ⟨h1, h2⟩ := hrender
      subst htot
      rw [← h2, h1]
      simp only [pieSlices]
      rw [pieSlicesGo_length, pieSlicesGo_map_pct_zero]

/-- Witness for claim C7 at a concrete input with no matching entry. -/
theorem renderProjectPieChart_spec_witness :
    (([("/foo/bar", 5)] : List (String × ℤ)).filter fun e => bahrainFilter e.1) = []
    ∧ renderProjectPieChart [("/foo/bar", 5)] = PieScene.placeholder :=
  ⟨by decide, (renderProjectPieChart_spec _).1 (by decide)⟩

/-! The darken-color transform (ProfileView.darkenColor). -/

/-- ProfileView.darkenColor on the parsed 24-bit color number: amt =
Math.round(2.55 * percent), written 51 / 20; each channel (num >> 16,
num >> 8 & 0xFF, num & 0xFF) has amt subtracted and is clamped at 0
(c < 0 ? 0 : c); the channels are recombined as
0x1000000 + R * 0x10000 + G * 0x100 + B and rendered with
toString(16).slice(1), which drops the leading sentinel digit: numerically
the result is the recombined value minus 0x1000000. -/
def darkenColor (num : ℕ) (percent : ℚ) : ℤ :=
  let amt := jsRound (51 / 20 * percent)
  let R := (num : ℤ) / 65536 - amt
  let G := (num : ℤ) / 256 % 256 - amt
  let B := (num : ℤ) % 256 - amt
  (16777216 + (if R < 0 then 0 else R) * 65536 + (if G < 0 then 0 else G) * 256
    + (if B < 0 then 0 else B)) - 16777216

theorem recombine_channels (R G B : ℤ) (hR0 : 0 ≤ R) (hR1 : R ≤ 255)
    (hG0 : 0 ≤ G) (hG1 : G ≤ 255) (hB0 : 0 ≤ B) (hB1 : B ≤ 255) :
    ((16777216 + R * 65536 + G * 256 + B) - 16777216) / 65536 = R
    ∧ ((16777216 + R * 65536 + G * 256 + B) - 16777216) / 256 % 256 = G
    ∧ ((16777216 + R * 65536 + G * 256 + B) - 16777216) % 256 = B := by
  refine ⟨?_, ?_, ?_⟩ <;> omega

theorem darkenColor_channels (num : ℕ) (hnum : num < 16777216) (p : ℚ) (hp : 0 ≤ p) :
    darkenColor num p / 65536
        = (if (num : ℤ) / 65536 - jsRound (51 / 20 * p) < 0 then 0
           else (num : ℤ) / 65536 - jsRound (51 / 20 * p))
    ∧ darkenColor num p / 256 % 256
        = (if (num : ℤ) / 256 % 256 - jsRound (51 / 20 * p) < 0 then 0
           else (num : ℤ) / 256 % 256 - jsRound (51 / 20 * p))
    ∧ darkenColor num p % 256
        = (if (num : ℤ) % 256 - jsRound (51 / 20 * p) < 0 then 0
           else (num : ℤ) % 256 - jsRound (51 / 20 * p)) := by
  have hn : (num : ℤ) < 16777216 := by exact_mod_cast hnum
  have hn0 : 0 ≤ (num : ℤ) := Int.ofNat_nonneg num
  have ha : 0 ≤ jsRound (51 / 20 * p) := by
    rw [jsRound]
    refine Int.le_floor.mpr ?_
    push_cast
    linarith
  simp only [darkenColor]
  set a := jsRound (51 / 20 * p) with ha_def
  set cR := if (num : ℤ) / 65536 - a < 0 then 0 else (num : ℤ) / 65536 - a with hcR_def
  set cG := if (num : ℤ) / 256 % 256 - a < 0 then 0 else (num : ℤ) / 256 % 256 - a
    with hcG_def
  set cB := if (num : ℤ) % 256 - a < 0 then 0 else (num : ℤ) % 256 - a with hcB_def
  have hbR : 0 ≤ cR ∧ cR ≤ 255 := by
    rw [hcR_def]
    split_ifs <;> omega
  have hbG : 0 ≤ cG ∧ cG ≤ 255 := by
    rw [hcG_def]
    split_ifs <;> omega
  have hbB : 0 ≤ cB ∧ cB ≤ 255 := by
    rw [hcB_def]
    split_ifs <;> omega
  exact recombine_channels cR cG cB hbR.1 hbR.2 hbG.1 hbG.2 hbB.1 hbB.2

/-- Claim C8: for every 6-digit hex color, darkenColor with percent 0
returns the same color value, and for each fixed color every RGB channel of
the result, obtained by subtracting round(2.55 * percent) from the channel
and clamping at 0, is monotonically non-increasing as the percent grows
through non-negative values. -/
theorem darkenColor_spec (num : ℕ) (hnum : num < 16777216) :
    darkenColor num 0 = num
    ∧ ∀ p q : ℚ, 0 ≤ p → p ≤ q →
        darkenColor num q / 65536 ≤ darkenColor num p / 65536
        ∧ darkenColor num q / 256 % 256 ≤ darkenColor num p / 256 % 256
        ∧ darkenColor num q % 256 ≤ darkenColor num p % 256 := by
  have hn : (num : ℤ) < 16777216 := by exact_mod_cast hnum
  have hn0 : 0 ≤ (num : ℤ) := Int.ofNat_nonneg num
  constructor
  · have amt0 : jsRound (51 / 20 * 0) = 0 := by norm_num [jsRound]
    simp only [darkenColor, amt0, sub_zero]
    split_ifs <;> omega
  · intro p q hp hpq
    have hq : 0 ≤ q := le_trans hp hpq
    have hm : jsRound (51 / 20 * p) ≤ jsRound (51 / 20 * q) := by
      simp only [jsRound]
      exact Int.floor_le_floor (by linarith)
    obtain ⟨e1p, e2p, e3p⟩ := darkenColor_channels num hnum p hp
    obtain ⟨e1q, e2q, e3q⟩ := darkenColor_channels num hnum q hq
    refine ⟨?_, ?_, ?_⟩
    · rw [e1p, e1q]
      split_ifs <;> omega
    · rw [e2p, e2q]
      split_ifs <;> omega
    · rw [e3p, e3q]
      split_ifs <;> omega

/-- Witness for claim C8 at the concrete color 0x3B82F6 = 3900150 and the
percents 0 and 100. -/
theorem darkenColor_spec_witness :
    3900150 < 16777216
    ∧ darkenColor 3900150 0 = 3900150
    ∧ (0 : ℚ) ≤ 0 ∧ (0 : ℚ) ≤ 100
    ∧ darkenColor 3900150 100 / 65536 ≤ darkenColor 3900150 0 / 65536 :=
  ⟨by decide, (darkenColor_spec 3900150 (by decide)).1, le_refl 0, by simp,
   ((darkenColor_spec 3900150 (by decide)).2 0 100 (le_refl 0) (by simp)).1⟩

end GraphQLProfile
